import Mathlib

/-!
A shallow embedding of the kelindar/loader repository.

The embedding covers the conditional-load path (`Loader.LoadIf` in loader.go
and the `DownloadIf` functions of the file and s3 backends) and the watch
subsystem (the watcher state machine of watcher.go and the per-URI watcher
registry of loader.go).

Conventions used throughout:
- Go `time.Time` values are embedded as `Int` nanoseconds since the Unix
  epoch; `time.Time.Unix()` is floor division by 10^9 (`unixSec` below),
  which is what Go computes for any time value.
- Go `[]byte` is `Option Bytes`, with `none` embedding the nil slice, since
  the code distinguishes nil from non-nil slices.
- A Go `([]byte, error)` return value is the pair `Option Bytes × Option
  String`, errors being carried as their message strings (the watch core
  treats errors as opaque values that are only relayed).
- URI parsing (`net/url`) and the HTTP/S3/GCS transfer clients are external
  collaborators (spec section 1); URIs arrive pre-parsed as a record of
  scheme, host and path, and the network clients are abstract functions.
-/

namespace LoaderSpec

/-- Byte payloads fetched from a backend. -/
abbrev Bytes := List Nat

/-- A Go-style `([]byte, error)` result: `none` in the first component embeds
a nil byte slice, the second component is the error (by message). -/
abbrev DlResult := Option Bytes × Option String

/-- Unix seconds of a time given in nanoseconds: Go's `time.Time.Unix()`.
Go stores a time as whole seconds plus a nanosecond offset in `[0, 1e9)`, so
`Unix()` is the floor of the nanosecond count divided by 10^9; `Int.ediv`
with a positive divisor is exactly floor division. -/
def unixSec (t : Int) : Int := Int.ediv t 1000000000

/-- Parsed form of a URI: scheme, host and path components.  Parsing itself
(`url.Parse`) is an external collaborator and is not embedded. -/
structure Uri where
  scheme : String
  host : String
  path : String
  deriving DecidableEq

/-- ASCII lower-casing of one character, as Go's `strings.ToLower` performs
on ASCII input (the Go standard library function is an external
collaborator; this model covers the ASCII range the code dispatches on). -/
def lowerChar (c : Char) : Char :=
  if 65 ≤ c.toNat ∧ c.toNat ≤ 90 then Char.ofNat (c.toNat + 32) else c

/-- Go `strings.ToLower`, modelled character-wise over the string data. -/
def toLowerStr (s : String) : String := ⟨s.data.map lowerChar⟩

/-- Metadata and content of one file in the filesystem environment, as
observed through `os.Stat` (`modTime`) and `ioutil.ReadFile` (`content`). -/
structure FileInfo where
  modTime : Int
  content : Bytes
  deriving DecidableEq

/-- The local filesystem environment the file backend reads: a map from path
to the file found there, `none` when `os.Stat` fails. -/
abbrev FileSys := String → Option FileInfo

namespace FileB

/-- file/file.go `isModified`: the resource counts as modified only when its
modification time, in whole Unix seconds, strictly exceeds `updatedSince` in
whole Unix seconds. -/
def isModified (updatedAt updatedSince : Int) : Bool :=
  unixSec updatedSince < unixSec updatedAt

/-- file/file.go `parse`: the slash-stripping step of the file backend's URI
handling (it removes the first character of the path when that is a slash). -/
def parsePath (p : String) : String :=
  match p.data with
  | '/' :: rest => ⟨rest⟩
  | _ => p

/-- file/file.go `Client.Download`: reads the file at the URI's path. -/
def Download (fs : FileSys) (u : Uri) : DlResult :=
  match fs (parsePath u.path) with
  | some fi => (some fi.content, none)
  | none => (none, some "read error")

/-- file/file.go `Client.DownloadIf`: stats the file, returns `(nil, nil)`
when it has not been modified since `updatedSince`, otherwise downloads. -/
def DownloadIf (fs : FileSys) (u : Uri) (updatedSince : Int) : DlResult :=
  match fs (parsePath u.path) with
  | none => (none, some "stat error")
  | some fi =>
    if !(isModified fi.modTime updatedSince) then (none, none)
    else Download fs u

end FileB

namespace S3B

/-- s3/s3.go `isModified`: identical comparison to the file backend. -/
def isModified (updatedAt updatedSince : Int) : Bool :=
  unixSec updatedSince < unixSec updatedAt

/-- One object in an S3 listing: key, size and last-modified time. -/
structure S3Obj where
  key : String
  size : Nat
  lastModified : Int
  deriving DecidableEq

/-- Nanoseconds of Go's zero `time.Time` (January 1, year 1): the initial
accumulator of `getLatestKey`'s fold is the zero time value. -/
def goZeroTime : Int := -62135596800 * 1000000000

/-- The S3 service as seen by the client: a listing per bucket and prefix
(`none` embeds a failed ListObjectsV2 call) and object contents per bucket
and key (`none` embeds a failed download). -/
structure Client where
  listObjects : String → String → Option (List S3Obj)
  getObject : String → String → Option Bytes

/-- s3/s3.go `getLatestKey`: lists the bucket under the prefix and folds over
the objects, keeping the key of the latest non-empty object; errors when the
listing fails or no non-empty object is found. -/
def getLatestKey (c : Client) (bucket pfx : String) : Except String (String × Int) :=
  match c.listObjects bucket pfx with
  | none => .error "list error"
  | some objs =>
    let acc := objs.foldl
      (fun (a : String × Int) o =>
        if o.size > 0 && isModified o.lastModified a.2 then (o.key, o.lastModified) else a)
      ("", goZeroTime)
    if acc.1 = "" then .error "key does not exist" else .ok acc

/-- s3/s3.go `Client.Download`: fetches one object. -/
def Download (c : Client) (bucket key : String) : DlResult :=
  match c.getObject bucket key with
  | some b => (some b, none)
  | none => (none, some "download error")

/-- s3/s3.go `Client.DownloadIf`: finds the latest key under the prefix,
returns `(nil, nil)` when it is not newer than `updatedSince`, otherwise
downloads it. -/
def DownloadIf (c : Client) (bucket pfx : String) (updatedSince : Int) : DlResult :=
  match getLatestKey c bucket pfx with
  | .error e => (none, some e)
  | .ok (key, updatedAt) =>
    if !(isModified updatedAt updatedSince) then (none, none)
    else Download c bucket key

end S3B

namespace HttpB

/-- http/http.go `isModified`: identical comparison to the file backend. -/
def isModified (updatedAt updatedSince : Int) : Bool :=
  unixSec updatedSince < unixSec updatedAt

end HttpB

/-- loader.go `getBucket`: `strings.Split(host, ".")[0]`, the host up to the
first dot (`strings.Split` always returns the text before the first
separator as its first element). -/
def getBucket (host : String) : String :=
  ⟨host.data.takeWhile (· ≠ '.')⟩

/-- loader.go `getPrefix`: `strings.TrimLeft(path, "/")`, the path with all
leading slashes removed. -/
def getPrefix' (path : String) : String :=
  ⟨path.data.dropWhile (· == '/')⟩

/-- loader.go `zeroTime = time.Unix(0, 0)`: zero nanoseconds. -/
def zeroTime : Int := 0

/-- loader.go `Loader`: the filesystem environment stands in for the file
client, the S3 environment for the S3 client; the HTTP and GCS clients are
external collaborators embedded as abstract conditional-fetch functions. -/
structure Loader where
  fs : FileSys
  web : Uri → Int → DlResult
  s3 : S3B.Client
  gcs : String → String → Int → DlResult

/-- loader.go `Loader.LoadIf`: dispatches on the lower-cased URI scheme to
the matching backend, failing with an unsupported-scheme error otherwise. -/
def LoadIf (l : Loader) (u : Uri) (updatedSince : Int) : DlResult :=
  match toLowerStr u.scheme with
  | "file" => FileB.DownloadIf l.fs u updatedSince
  | "http" => l.web u updatedSince
  | "https" => l.web u updatedSince
  | "s3" => S3B.DownloadIf l.s3 (getBucket u.host) (getPrefix' u.path) updatedSince
  | "gcs" => l.gcs (getBucket u.host) (getPrefix' u.path) updatedSince
  | "cs" => l.gcs (getBucket u.host) (getPrefix' u.path) updatedSince
  | _ => (none, some ("scheme " ++ u.scheme ++ " is not supported"))

/-- loader.go `Loader.Load`: delegates to `LoadIf` at `zeroTime`. -/
def Load (l : Loader) (u : Uri) : DlResult :=
  LoadIf l u zeroTime

/-- watcher.go state constants `isCreated`, `isRunning`, `isCanceled`,
`isDisposed` (an `int32` iota in the source). -/
inductive WState where
  | created
  | running
  | canceled
  | disposed
  deriving DecidableEq

/-- watcher.go `Update`: one update event, carrying the downloaded contents
and the error of the attempt (either may be nil). -/
structure Update where
  data : Option Bytes
  err : Option String
  deriving DecidableEq

/-- The state of one watcher: the atomic state word and `updatedAt` of
watcher.go, plus ghost counters observing the side effects whose
multiplicity the specification constrains — how often the update channel was
closed (`closes`), how often the teardown callback ran (`stops`) and how
many polling loops were launched with `go checkLoop` (`loops`). -/
structure WModel where
  state : WState
  updatedAt : Int
  closes : Nat
  stops : Nat
  loops : Nat
  deriving DecidableEq

/-- watcher.go `newWatcher`: initial state `isCreated`, `updatedAt = 0`. -/
def newWatcherM : WModel :=
  { state := .created, updatedAt := 0, closes := 0, stops := 0, loops := 0 }

/-- watcher.go `updatedAtTime`: `time.Unix(0, updatedAt)`, which is the
stored nanosecond count itself. -/
def updatedAtTime (w : WModel) : Int := w.updatedAt

/-- watcher.go `dispose`: only the caller whose compare-and-swap from
`isCanceled` to `isDisposed` succeeds closes the channel and runs the
teardown callback. -/
def dispose (w : WModel) : WModel :=
  if w.state = .canceled then
    { w with state := .disposed, closes := w.closes + 1, stops := w.stops + 1 }
  else w

/-- watcher.go `Close`: compare-and-swap from `isRunning` to `isCanceled`
(the result is ignored), then `dispose`. -/
def close (w : WModel) : WModel :=
  dispose (if w.state = .running then { w with state := .canceled } else w)

/-- One iteration's environment for a check: whether the caller's context is
done before the loop iteration, the value `time.Now()` reads at the start of
the check, and the outcome `Loader.LoadIf` produces as a function of the
`updatedSince` argument the watcher passes it.  The per-attempt timeout
context merely bounds the external fetch and is part of the fetch model. -/
structure Tick where
  done : Bool
  now : Int
  fetch : Int → DlResult

/-- watcher.go `check`: dispose when canceled; do nothing from `isCreated`
or `isDisposed`; otherwise record `now`, fetch conditionally on the
last-update time, skip silently on `(nil, nil)`, and otherwise store `now`
into `updatedAt` and emit the update. -/
def check (t : Tick) (w : WModel) : WModel × Option Update :=
  match w.state with
  | .canceled => (dispose w, none)
  | .disposed => (w, none)
  | .created => (w, none)
  | .running =>
    let r := t.fetch (updatedAtTime w)
    if r.1 = none ∧ r.2 = none then (w, none)
    else ({ w with updatedAt := t.now }, some ⟨r.1, r.2⟩)

/-- watcher.go `Start`: only the caller whose compare-and-swap from
`isCreated` to `isRunning` succeeds performs the immediate check and
launches the polling loop; any other call returns at once. -/
def start (t : Tick) (w : WModel) : WModel × Option Update :=
  if w.state = .created then
    let p := check t { w with state := .running }
    ({ p.1 with loops := p.1.loops + 1 }, p.2)
  else (w, none)

/-- The log of one loop iteration that reached `check` in the running state:
the `updatedSince` value passed to `Loader.LoadIf` for this attempt, and, if
an update was pushed, the pair of the `now` recorded for it and the update
itself. -/
structure Entry where
  since : Int
  sent : Option (Int × Update)
  deriving DecidableEq

/-- watcher.go `checkLoop` run against a finite schedule of iterations:
while the state word reads `isRunning`, each iteration first tests the
context's done signal — closing and disposing the watcher and returning when
it has fired — and otherwise performs one `check` (the sleep between
iterations carries no state and is not represented).  In addition to the
final watcher the function returns the log of the performed checks. -/
def checkLoop : List Tick → WModel → WModel × List Entry
  | [], w => (w, [])
  | t :: ts, w =>
    if w.state = .running then
      if t.done then (dispose (close w), [])
      else
        let p := check t w
        let rest := checkLoop ts p.1
        (rest.1, ⟨updatedAtTime w, p.2.map fun u => (t.now, u)⟩ :: rest.2)
    else (w, [])

/-- The publish-time `now` values of the updates pushed during a run, in
emission order. -/
def sentNows (es : List Entry) : List Int :=
  (es.filterMap (·.sent)).map Prod.fst

/-- The `now` recorded for the last update pushed during the logged run, or
`init` when the run pushed none — the value `updatedAt` holds afterwards. -/
def lastSent (init : Int) (es : List Entry) : Int :=
  es.foldl (fun a e => match e.sent with | some (n, _) => n | none => a) init

/-- Observable record of one watcher in the interleaving model of the watch
registry: the atomic state word plus ghost counters for the side effects the
compare-and-swap winners perform — polling loops launched (`starts`),
channel closes (`closes`) and teardown-callback invocations (`stops`). -/
structure WRec where
  state : WState
  starts : Nat
  closes : Nat
  stops : Nat
  deriving DecidableEq

/-- Global state of the watch subsystem for one URI: every watcher ever
created for it (indexed by creation order; the index doubles as the identity
of the watcher's update channel) and the registry slot `sync.Map` holds for
the URI (`none` when the map has no entry). -/
structure Sys where
  ws : List WRec
  reg : Option Nat
  deriving DecidableEq

/-- The initial system: no watcher yet, no registry entry. -/
def initSys : Sys := { ws := [], reg := none }

/-- A freshly constructed watcher record (`newWatcher`). -/
def freshW : WRec := { state := .created, starts := 0, closes := 0, stops := 0 }

/-- The store half of `Loader.Watch`'s `sync.Map.LoadOrStore`: when the URI
has no entry, a fresh watcher is created and registered; when an entry
exists the call changes nothing (the caller is handed the existing
watcher's channel). -/
def watchStoreFn (s : Sys) : Sys :=
  match s.reg with
  | some _ => s
  | none => { ws := s.ws ++ [freshW], reg := some s.ws.length }

/-- watcher.go `Start` on watcher `i` as an atomic transition: the
compare-and-swap from `isCreated` to `isRunning`; its winner performs the
immediate check and spawns the polling loop (counted by `starts`).  A call
whose compare-and-swap fails changes nothing. -/
def casStartFn (s : Sys) (i : Nat) : Sys :=
  match s.ws.get? i with
  | some w =>
    if w.state = .created then
      { s with ws := s.ws.set i { w with state := .running, starts := w.starts + 1 } }
    else s
  | none => s

/-- The compare-and-swap from `isRunning` to `isCanceled` performed by
watcher.go `Close` (from an unwatch request or from the loop observing the
context's done signal). -/
def casCancelFn (s : Sys) (i : Nat) : Sys :=
  match s.ws.get? i with
  | some w =>
    if w.state = .running then
      { s with ws := s.ws.set i { w with state := .canceled } }
    else s
  | none => s

/-- watcher.go `dispose` on watcher `i` as an atomic transition: the
compare-and-swap from `isCanceled` to `isDisposed`; only its winner closes
the update channel and runs the teardown callback.  Modelled from the spec:
the teardown callback `Watch` registers is absent from src/loader.go (its
`newWatcher` call passes no callback), and per the spec it notifies the
registry to drop this watcher's entry — embedded as the `sync.Map.Delete`
of the URI's slot, performed together with the winning compare-and-swap. -/
def casDisposeFn (s : Sys) (i : Nat) : Sys :=
  match s.ws.get? i with
  | some w =>
    if w.state = .canceled then
      { ws := s.ws.set i
          { w with state := .disposed, closes := w.closes + 1, stops := w.stops + 1 },
        reg := none }
    else s
  | none => s

/-- One atomic step of the watch subsystem.  Every write the source performs
on shared state is one of these: the registry store of `Watch`, or one of
the three compare-and-swap transitions of the watcher state word (each a
no-op when it loses).  The steps may be interleaved arbitrarily, which
covers every concurrent schedule of `Watch`, `Unwatch`, the polling loop
and context cancellation. -/
inductive Step : Sys → Sys → Prop where
  | store (s : Sys) : Step s (watchStoreFn s)
  | start (s : Sys) (i : Nat) : Step s (casStartFn s i)
  | cancel (s : Sys) (i : Nat) : Step s (casCancelFn s i)
  | dispose (s : Sys) (i : Nat) : Step s (casDisposeFn s i)

/-- States of the watch subsystem reachable from the initial state by some
interleaving of atomic steps. -/
inductive Reachable : Sys → Prop where
  | init : Reachable initSys
  | step {s s' : Sys} : Reachable s → Step s s' → Reachable s'

/-- loader.go `Loader.Watch` as one uncontended call: `LoadOrStore` followed,
for a newly stored watcher only, by `Start`.  Returns the identity of the
update channel handed back (the index of the watcher that owns it). -/
def watchFn (s : Sys) : Nat × Sys :=
  match s.reg with
  | some i => (i, s)
  | none => (s.ws.length, casStartFn (watchStoreFn s) s.ws.length)

/-- loader.go `Loader.Unwatch` as one uncontended call: look up the URI's
entry, returning false without effect when there is none, and otherwise stop
the found watcher.  Modelled from the spec: src/loader.go invokes a `Stop`
method src/watcher.go does not define; per the spec an unwatch request asks
the watcher to stop, which is `Close` — the running-to-canceled
compare-and-swap followed by `dispose`. -/
def unwatchFn (s : Sys) : Bool × Sys :=
  match s.reg with
  | some i => (true, casDisposeFn (casCancelFn s i) i)
  | none => (false, s)

/-- The start counter matches the state word: the loop-spawning side effect
has run exactly once unless the watcher is still in its created state. -/
def StartsOk (w : WRec) : Prop :=
  if w.state = .created then w.starts = 0 else w.starts = 1

/-- The disposal side effects match the state word: channel close and
teardown callback have each run exactly once when disposed, never before. -/
def DisposeOk (w : WRec) : Prop :=
  if w.state = .disposed then w.closes = 1 ∧ w.stops = 1
  else w.closes = 0 ∧ w.stops = 0

/-- The inductive invariant of the watch subsystem: a watcher is
non-disposed exactly when the registry slot points at it (so the registry
holds at most one live watcher and never a disposed one), and the ghost
counters agree with the state word. -/
def Inv (s : Sys) : Prop :=
  ∀ i w, s.ws.get? i = some w →
    ((w.state ≠ .disposed ↔ s.reg = some i) ∧ StartsOk w ∧ DisposeOk w)

/-- The specification's notion of the last-successful-update timestamp over
a logged run: the publish-time `now` of the last update that carried no
error, or `init` when no successful update has occurred.  Stated from the
spec's words, for comparison with what the code actually passes to the
conditional fetch. -/
def lastSuccessful (init : Int) (es : List Entry) : Int :=
  es.foldl
    (fun a e => match e.sent with
      | some (n, u) => if u.err = none then n else a
      | none => a) init

/-- Fixture: a filesystem with one file modified half a second past the Unix
epoch (whole Unix second 0). -/
def fsEpoch : FileSys :=
  fun p => if p = "a.txt" then some { modTime := 500000000, content := [7] } else none

/-- Fixture: a filesystem with one file modified at 1.9 seconds past the
epoch (whole Unix second 1). -/
def fsLate : FileSys :=
  fun p => if p = "b.txt" then some { modTime := 1900000000, content := [3, 4] } else none

/-- Fixture: an S3 environment with no objects. -/
def s3Empty : S3B.Client :=
  { listObjects := fun _ _ => none, getObject := fun _ _ => none }

/-- Fixture: an S3 environment with one non-empty object modified at 1.9
seconds past the epoch. -/
def s3One : S3B.Client :=
  { listObjects := fun _ _ => some [{ key := "k", size := 2, lastModified := 1900000000 }],
    getObject := fun _ _ => some [9] }

/-- Fixture: a loader over `fsEpoch` with inert remote backends. -/
def loaderEpoch : Loader :=
  { fs := fsEpoch, web := fun _ _ => (none, none), s3 := s3Empty,
    gcs := fun _ _ _ => (none, none) }

/-- Fixture: a loader over `fsLate` with inert remote backends. -/
def loaderLate : Loader :=
  { fs := fsLate, web := fun _ _ => (none, none), s3 := s3Empty,
    gcs := fun _ _ _ => (none, none) }

/-- Fixture: the file URI of `fsEpoch`'s file. -/
def uriA : Uri := { scheme := "file", host := "", path := "/a.txt" }

/-- Fixture: the file URI of `fsLate`'s file. -/
def uriB : Uri := { scheme := "file", host := "", path := "/b.txt" }

/-- Fixture: a watcher in the running state with no update recorded yet. -/
def wRun : WModel := { state := .running, updatedAt := 0, closes := 0, stops := 0, loops := 1 }

/-- Fixture: a loop iteration whose fetch fails with an error, at time 5. -/
def tickErr : Tick := { done := false, now := 5, fetch := fun _ => (none, some "boom") }

/-- Fixture: a second failing loop iteration, at time 9. -/
def tickErr2 : Tick := { done := false, now := 9, fetch := fun _ => (none, some "boom") }

/-- Fixture: a loop iteration whose fetch reports no change, at time 13. -/
def tickSkip : Tick := { done := false, now := 13, fetch := fun _ => (none, none) }

/-- Fixture: a loop iteration whose fetch returns fresh data, at time 17. -/
def tickData : Tick := { done := false, now := 17, fetch := fun _ => (some [1], none) }

/-- Fixture: the registry system after one Watch call stored and started a
watcher for the URI. -/
def sysStarted : Sys := casStartFn (watchStoreFn initSys) 0

/-- Fixture: `sysStarted` after the watcher's running-to-canceled
compare-and-swap. -/
def sysCanceled : Sys := casCancelFn sysStarted 0

/-- Fixture: `sysCanceled` after the watcher's disposal. -/
def sysDisposed : Sys := casDisposeFn sysCanceled 0

/-- Fixture: the record of a started watcher. -/
def wRecRunning : WRec := { state := .running, starts := 1, closes := 0, stops := 0 }

/-- Fixture: the record of a canceled watcher. -/
def wRecCanceled : WRec := { state := .canceled, starts := 1, closes := 0, stops := 0 }

/-- Fixture: the record of a disposed watcher. -/
def wRecDisposed : WRec := { state := .disposed, starts := 1, closes := 1, stops := 1 }

-- ===== DEFS-END ===== (definitions above, lemmas and theorems below)

lemma inv_init : Inv initSys := by
  intro i w hw
  simp [initSys] at hw

lemma inv_store {s : Sys} (h : Inv s) : Inv (watchStoreFn s) := by
  unfold watchStoreFn
  split
  · exact h
  next hr =>
    intro i w hw
    rcases Nat.lt_trichotomy i s.ws.length with hlt | heq | hgt
    · rw [List.get?_append hlt] at hw
      obtain ⟨hiff, hst, hd⟩ := h i w hw
      have hdisp : w.state = .disposed := by
        by_contra hnd
        have := hiff.1 hnd
        rw [hr] at this
        exact Option.noConfusion this
      refine ⟨?_, hst, hd⟩
      constructor
      · intro hnd; exact absurd hdisp hnd
      · intro hsome
        injection hsome with hlen
        exact absurd hlen.symm (Nat.ne_of_lt hlt)
    · subst heq
      rw [List.get?_concat_length] at hw
      injection hw with hw
      subst hw
      exact ⟨by simp [freshW], by simp [StartsOk, freshW], by simp [DisposeOk, freshW]⟩
    · have hnone : (s.ws ++ [freshW]).get? i = none := by
        rw [List.get?_eq_none]
        simp only [List.length_append, List.length_singleton]
        omega
      rw [hnone] at hw
      exact Option.noConfusion hw

lemma inv_start {s : Sys} {j : Nat} (h : Inv s) : Inv (casStartFn s j) := by
  unfold casStartFn
  split
  next w0 hg =>
    split
    next hst =>
      intro i w hw
      by_cases hij : i = j
      · subst hij
        rw [List.get?_set_eq_of_lt _ (List.get?_eq_some.1 hg).1] at hw
        injection hw with hw
        subst hw
        obtain ⟨hiff, hst0, hd0⟩ := h i w0 hg
        have hreg : s.reg = some i := hiff.1 (by rw [hst]; simp)
        refine ⟨by simp [hreg], ?_, ?_⟩
        · simp [StartsOk, hst] at hst0
          simp [StartsOk, hst0]
        · simp [DisposeOk, hst] at hd0
          simp [DisposeOk, hd0]
      · rw [List.get?_set_ne _ _ fun e => hij e.symm] at hw
        exact h i w hw
    · exact h
  · exact h

lemma inv_cancel {s : Sys} {j : Nat} (h : Inv s) : Inv (casCancelFn s j) := by
  unfold casCancelFn
  split
  next w0 hg =>
    split
    next hst =>
      intro i w hw
      by_cases hij : i = j
      · subst hij
        rw [List.get?_set_eq_of_lt _ (List.get?_eq_some.1 hg).1] at hw
        injection hw with hw
        subst hw
        obtain ⟨hiff, hst0, hd0⟩ := h i w0 hg
        have hreg : s.reg = some i := hiff.1 (by rw [hst]; simp)
        refine ⟨by simp [hreg], ?_, ?_⟩
        · simp [StartsOk, hst] at hst0
          simp [StartsOk, hst0]
        · simp [DisposeOk, hst] at hd0
          simp [DisposeOk, hd0]
      · rw [List.get?_set_ne _ _ fun e => hij e.symm] at hw
        exact h i w hw
    · exact h
  · exact h

lemma inv_dispose {s : Sys} {j : Nat} (h : Inv s) : Inv (casDisposeFn s j) := by
  unfold casDisposeFn
  split
  next w0 hg =>
    split
    next hst =>
      have hreg : s.reg = some j := (h j w0 hg).1.1 (by rw [hst]; simp)
      intro i w hw
      by_cases hij : i = j
      · subst hij
        rw [List.get?_set_eq_of_lt _ (List.get?_eq_some.1 hg).1] at hw
        injection hw with hw
        subst hw
        obtain ⟨hiff, hst0, hd0⟩ := h i w0 hg
        refine ⟨by simp, ?_, ?_⟩
        · simp [StartsOk, hst] at hst0
          simp [StartsOk, hst0]
        · simp [DisposeOk, hst] at hd0
          simp [DisposeOk, hd0]
      · rw [List.get?_set_ne _ _ fun e => hij e.symm] at hw
        obtain ⟨hiff, hst0, hd0⟩ := h i w hw
        have hdisp : w.state = .disposed := by
          by_contra hnd
          have := hiff.1 hnd
          rw [hreg] at this
          injection this with e
          exact hij e.symm
        exact ⟨by simp [hdisp], hst0, hd0⟩
    · exact h
  · exact h

lemma reachable_inv {s : Sys} (h : Reachable s) : Inv s := by
  induction h with
  | init => exact inv_init
  | step _ hstep ih =>
    cases hstep with
    | store => exact inv_store ih
    | start i => exact inv_start ih
    | cancel i => exact inv_cancel ih
    | dispose i => exact inv_dispose ih

lemma step_state_change {s s' : Sys} (hs : Step s s') :
    ∀ i w w', s.ws.get? i = some w → s'.ws.get? i = some w' → w.state ≠ w'.state →
      (w.state = .created ∧ w'.state = .running) ∨
      (w.state = .running ∧ w'.state = .canceled) ∨
      (w.state = .canceled ∧ w'.state = .disposed) := by
  cases hs with
  | store =>
    intro i w w' hw hw' hne
    unfold watchStoreFn at hw'
    split at hw'
    · rw [hw] at hw'; injection hw' with e; exact absurd (congrArg WRec.state e) hne
    · rw [List.get?_append (List.get?_eq_some.1 hw).1, hw] at hw'
      injection hw' with e
      exact absurd (congrArg WRec.state e) hne
  | start j =>
    intro i w w' hw hw' hne
    unfold casStartFn at hw'
    split at hw'
    next w0 hg =>
      split at hw'
      next hst =>
        by_cases hij : i = j
        · subst hij
          rw [hw] at hg; injection hg with hg; subst hg
          rw [List.get?_set_eq_of_lt _ (List.get?_eq_some.1 hw).1] at hw'
          injection hw' with e; subst e
          exact Or.inl ⟨hst, rfl⟩
        · rw [List.get?_set_ne _ _ fun e => hij e.symm, hw] at hw'
          injection hw' with e
          exact absurd (congrArg WRec.state e) hne
      · rw [hw] at hw'; injection hw' with e
        exact absurd (congrArg WRec.state e) hne
    · rw [hw] at hw'; injection hw' with e
      exact absurd (congrArg WRec.state e) hne
  | cancel j =>
    intro i w w' hw hw' hne
    unfold casCancelFn at hw'
    split at hw'
    next w0 hg =>
      split at hw'
      next hst =>
        by_cases hij : i = j
        · subst hij
          rw [hw] at hg; injection hg with hg; subst hg
          rw [List.get?_set_eq_of_lt _ (List.get?_eq_some.1 hw).1] at hw'
          injection hw' with e; subst e
          exact Or.inr (Or.inl ⟨hst, rfl⟩)
        · rw [List.get?_set_ne _ _ fun e => hij e.symm, hw] at hw'
          injection hw' with e
          exact absurd (congrArg WRec.state e) hne
      · rw [hw] at hw'; injection hw' with e
        exact absurd (congrArg WRec.state e) hne
    · rw [hw] at hw'; injection hw' with e
      exact absurd (congrArg WRec.state e) hne
  | dispose j =>
    intro i w w' hw hw' hne
    unfold casDisposeFn at hw'
    split at hw'
    next w0 hg =>
      split at hw'
      next hst =>
        by_cases hij : i = j
        · subst hij
          rw [hw] at hg; injection hg with hg; subst hg
          rw [List.get?_set_eq_of_lt _ (List.get?_eq_some.1 hw).1] at hw'
          injection hw' with e; subst e
          exact Or.inr (Or.inr ⟨hst, rfl⟩)
        · rw [List.get?_set_ne _ _ fun e => hij e.symm, hw] at hw'
          injection hw' with e
          exact absurd (congrArg WRec.state e) hne
      · rw [hw] at hw'; injection hw' with e
        exact absurd (congrArg WRec.state e) hne
    · rw [hw] at hw'; injection hw' with e
      exact absurd (congrArg WRec.state e) hne

lemma live_unique {s : Sys} (h : Inv s) {i j : Nat} {wi wj : WRec}
    (hi : s.ws.get? i = some wi) (hj : s.ws.get? j = some wj)
    (hni : wi.state ≠ .disposed) (hnj : wj.state ≠ .disposed) : i = j := by
  have h1 := (h i wi hi).1.1 hni
  have h2 := (h j wj hj).1.1 hnj
  rw [h1] at h2
  injection h2

lemma casStartFn_reg (s : Sys) (i : Nat) : (casStartFn s i).reg = s.reg := by
  unfold casStartFn
  split
  · split <;> rfl
  · rfl

lemma watch_of_reg {s : Sys} {i : Nat} (h : s.reg = some i) : watchFn s = (i, s) := by
  unfold watchFn
  rw [h]

lemma unwatch_none {s : Sys} (h : s.reg = none) : unwatchFn s = (false, s) := by
  unfold unwatchFn
  rw [h]

lemma watch_fresh {s : Sys} (h : s.reg = none) :
    (watchFn s).1 = s.ws.length ∧
    (watchFn s).2.reg = some s.ws.length ∧
    (watchFn s).2.ws.get? s.ws.length =
      some { state := .running, starts := 1, closes := 0, stops := 0 } := by
  have hcas : casStartFn { ws := s.ws ++ [freshW], reg := some s.ws.length } s.ws.length
      = { ws := (s.ws ++ [freshW]).set s.ws.length
            { state := .running, starts := 1, closes := 0, stops := 0 },
          reg := some s.ws.length } := by
    unfold casStartFn
    rw [show Sys.ws { ws := s.ws ++ [freshW], reg := some s.ws.length } = s.ws ++ [freshW] from rfl,
      List.get?_concat_length]
    rfl
  have hwf : watchFn s
      = (s.ws.length, casStartFn { ws := s.ws ++ [freshW], reg := some s.ws.length } s.ws.length) := by
    unfold watchFn watchStoreFn
    rw [h]
  rw [hwf, hcas]
  refine ⟨rfl, rfl, ?_⟩
  rw [List.get?_set_eq_of_lt _ (by simp : s.ws.length < (s.ws ++ [freshW]).length)]

lemma watch_ne_disposed {s : Sys} (h : Inv s) {i : Nat} {w : WRec}
    (hw : s.ws.get? i = some w) (hd : w.state = .disposed) : (watchFn s).1 ≠ i := by
  cases hr : s.reg with
  | some j =>
    rw [watch_of_reg hr]
    intro e
    exact (h i w hw).1.2 (by rw [hr]; exact congrArg some e) hd
  | none =>
    rw [(watch_fresh hr).1]
    exact fun e => absurd (List.get?_eq_some.1 hw).1 (by rw [e]; exact Nat.lt_irrefl _)

lemma check_running {t : Tick} {w : WModel} (h : w.state = .running) :
    check t w =
      if (t.fetch (updatedAtTime w)).1 = none ∧ (t.fetch (updatedAtTime w)).2 = none
      then (w, none)
      else ({ w with updatedAt := t.now },
            some ⟨(t.fetch (updatedAtTime w)).1, (t.fetch (updatedAtTime w)).2⟩) := by
  unfold check
  rw [h]

lemma check_state {t : Tick} {w : WModel} (h : w.state = .running) :
    (check t w).1.state = .running := by
  rw [check_running h]
  split
  · exact h
  · exact h

lemma check_cases {t : Tick} {w : WModel} (h : w.state = .running) :
    check t w = (w, none) ∨
    ∃ u, check t w = ({ w with updatedAt := t.now }, some u) := by
  rw [check_running h]
  split
  · exact Or.inl rfl
  · exact Or.inr ⟨_, rfl⟩

lemma check_emit_not_empty {t : Tick} {w w' : WModel} {u : Update}
    (h : check t w = (w', some u)) : ¬(u.data = none ∧ u.err = none) := by
  unfold check at h
  split at h
  · exact Option.noConfusion (congrArg Prod.snd h)
  · exact Option.noConfusion (congrArg Prod.snd h)
  · exact Option.noConfusion (congrArg Prod.snd h)
  · dsimp only at h
    split at h
    · exact Option.noConfusion (congrArg Prod.snd h)
    next hne =>
      have hu : u = ⟨(t.fetch (updatedAtTime w)).1, (t.fetch (updatedAtTime w)).2⟩ := by
        have h2 := congrArg Prod.snd h
        simpa using h2.symm
      subst hu
      exact hne

lemma start_of_created {t : Tick} {w : WModel} (h : w.state = .created) :
    start t w = (let p := check t { w with state := .running }
                 ({ p.1 with loops := p.1.loops + 1 }, p.2)) := by
  unfold start
  rw [if_pos h]

lemma start_of_not_created {t : Tick} {w : WModel} (h : w.state ≠ .created) :
    start t w = (w, none) := by
  unfold start
  rw [if_neg h]

lemma start_state_not_created (t : Tick) (w : WModel) :
    (start t w).1.state ≠ .created := by
  by_cases h : w.state = .created
  · rw [start_of_created h]
    have hr := check_state (t := t) (w := { w with state := .running }) rfl
    simp only
    rw [hr]
    simp
  · rw [start_of_not_created h]
    exact h

lemma start_start (t' t : Tick) (w : WModel) :
    start t' (start t w).1 = ((start t w).1, none) :=
  start_of_not_created (start_state_not_created t w)

lemma dispose_updatedAt (w : WModel) : (dispose w).updatedAt = w.updatedAt := by
  unfold dispose
  split <;> rfl

lemma close_updatedAt (w : WModel) : (close w).updatedAt = w.updatedAt := by
  unfold close
  rw [dispose_updatedAt]
  split <;> rfl

lemma checkLoop_nil (w : WModel) : checkLoop [] w = (w, []) := rfl

lemma checkLoop_not_running {w : WModel} (ts : List Tick) (h : w.state ≠ .running) :
    checkLoop ts w = (w, []) := by
  cases ts <;> simp [checkLoop, h]

lemma checkLoop_done {t : Tick} {w : WModel} (ts : List Tick)
    (h : w.state = .running) (hd : t.done = true) :
    checkLoop (t :: ts) w = (dispose (close w), []) := by
  simp [checkLoop, h, hd]

lemma checkLoop_run {t : Tick} {w : WModel} (ts : List Tick)
    (h : w.state = .running) (hd : t.done = false) :
    checkLoop (t :: ts) w =
      ((checkLoop ts (check t w).1).1,
       ⟨updatedAtTime w, (check t w).2.map fun u => (t.now, u)⟩
         :: (checkLoop ts (check t w).1).2) := by
  simp [checkLoop, h, hd]

lemma loop_sent_not_empty (ts : List Tick) (w : WModel) :
    ∀ e ∈ (checkLoop ts w).2, ∀ p, e.sent = some p →
      ¬(p.2.data = none ∧ p.2.err = none) := by
  induction ts generalizing w with
  | nil => simp [checkLoop_nil]
  | cons t ts ih =>
    by_cases h : w.state = .running
    · by_cases hd : t.done = true
      · rw [checkLoop_done ts h hd]
        simp
      · have hd' : t.done = false := by simpa using hd
        rw [checkLoop_run ts h hd']
        intro e he p hp
        rcases List.mem_cons.1 he with he | he
        · subst he
          cases hc : (check t w).2 with
          | none => rw [hc] at hp; exact absurd hp (by simp)
          | some u =>
            rw [hc] at hp
            simp only [Option.map_some] at hp
            injection hp with hp
            subst hp
            exact @check_emit_not_empty t w (check t w).1 u (by rw [← hc])
        · exact ih (check t w).1 e he p hp
    · rw [checkLoop_not_running (t :: ts) h]
      simp

lemma sentNows_sublist (ts : List Tick) (w : WModel) :
    (sentNows (checkLoop ts w).2).Sublist (ts.map (·.now)) := by
  induction ts generalizing w with
  | nil => simp [checkLoop_nil, sentNows]
  | cons t ts ih =>
    by_cases h : w.state = .running
    · by_cases hd : t.done = true
      · rw [checkLoop_done ts h hd]
        simp [sentNows]
      · have hd' : t.done = false := by simpa using hd
        rw [checkLoop_run ts h hd']
        cases hc : (check t w).2 with
        | none =>
          simp only [sentNows, hc, List.filterMap_cons, Option.map_none, List.map_cons]
          exact (ih (check t w).1).cons _
        | some u =>
          simp only [sentNows, hc, List.filterMap_cons, Option.map_some, List.map_cons]
          exact (ih (check t w).1).cons₂ _
    · rw [checkLoop_not_running (t :: ts) h]
      simp [sentNows]

lemma loop_mono (ts : List Tick) (w : WModel)
    (hlb : ∀ n ∈ ts.map (·.now), w.updatedAt ≤ n)
    (hpw : (ts.map (·.now)).Pairwise (· ≤ ·)) :
    (∀ e ∈ (checkLoop ts w).2, w.updatedAt ≤ e.since) ∧
    ((checkLoop ts w).2.map (·.since)).Pairwise (· ≤ ·) ∧
    w.updatedAt ≤ (checkLoop ts w).1.updatedAt := by
  induction ts generalizing w with
  | nil => simp [checkLoop_nil]
  | cons t ts ih =>
    have hlb0 : w.updatedAt ≤ t.now := hlb t.now (by simp)
    have hlbs : ∀ n ∈ ts.map (·.now), w.updatedAt ≤ n := fun n hn => hlb n (by simp [hn])
    rw [List.map_cons, List.pairwise_cons] at hpw
    obtain ⟨hpw0, hpws⟩ := hpw
    by_cases h : w.state = .running
    · by_cases hd : t.done = true
      · rw [checkLoop_done ts h hd]
        refine ⟨by simp, by simp, ?_⟩
        rw [dispose_updatedAt, close_updatedAt]
      · have hd' : t.done = false := by simpa using hd
        rw [checkLoop_run ts h hd']
        rcases check_cases (t := t) (w := w) h with hc | ⟨u, hc⟩
        · rw [hc]
          simp only
          have ih0 := ih w hlbs hpws
          refine ⟨?_, ?_, ih0.2.2⟩
          · intro e he
            rcases List.mem_cons.1 he with he | he
            · subst he; exact le_refl _
            · exact ih0.1 e he
          · rw [List.map_cons, List.pairwise_cons]
            refine ⟨?_, ih0.2.1⟩
            intro n hn
            obtain ⟨e, he, rfl⟩ := List.mem_map.1 hn
            exact ih0.1 e he
        · rw [hc]
          simp only
          have hlbs1 : ∀ n ∈ ts.map (·.now),
              (WModel.updatedAt { w with updatedAt := t.now }) ≤ n := by
            intro n hn
            simpa using hpw0 n hn
          have ih1 := ih { w with updatedAt := t.now } hlbs1 hpws
          refine ⟨?_, ?_, le_trans hlb0 ih1.2.2⟩
          · intro e he
            rcases List.mem_cons.1 he with he | he
            · subst he; exact le_refl _
            · exact le_trans hlb0 (ih1.1 e he)
          · rw [List.map_cons, List.pairwise_cons]
            refine ⟨?_, ih1.2.1⟩
            intro n hn
            obtain ⟨e, he, rfl⟩ := List.mem_map.1 hn
            exact le_trans hlb0 (ih1.1 e he)
    · rw [checkLoop_not_running (t :: ts) h]
      simp

lemma loop_since_lastSent (ts : List Tick) (w : WModel) :
    ∀ k (hk : k < (checkLoop ts w).2.length),
      ((checkLoop ts w).2.get ⟨k, hk⟩).since
        = lastSent w.updatedAt ((checkLoop ts w).2.take k) := by
  induction ts generalizing w with
  | nil =>
    intro k hk
    rw [checkLoop_nil] at hk
    exact absurd hk (by simp)
  | cons t ts ih =>
    by_cases h : w.state = .running
    · by_cases hd : t.done = true
      · rw [checkLoop_done ts h hd]
        intro k hk
        exact absurd hk (by simp)
      · have hd' : t.done = false := by simpa using hd
        rw [checkLoop_run ts h hd']
        intro k hk
        cases k with
        | zero => simp [lastSent, updatedAtTime]
        | succ m =>
          simp only [List.get_cons_succ, List.take_succ_cons]
          have hm : m < (checkLoop ts (check t w).1).2.length := by
            simpa using Nat.lt_of_succ_lt_succ hk
          rw [ih (check t w).1 m hm]
          rcases check_cases (t := t) (w := w) h with hc | ⟨u, hc⟩
          · rw [hc]
            simp [lastSent]
          · rw [hc]
            simp [lastSent]
    · rw [checkLoop_not_running (t :: ts) h]
      intro k hk
      exact absurd hk (by simp)

lemma unixSec_mono {a b : Int} (h : a ≤ b) : unixSec a ≤ unixSec b :=
  Int.ediv_le_ediv (by norm_num) h

lemma dispose_loops (w : WModel) : (dispose w).loops = w.loops := by
  unfold dispose
  split <;> rfl

lemma check_loops (t : Tick) (w : WModel) : (check t w).1.loops = w.loops := by
  unfold check
  split
  · exact dispose_loops w
  · rfl
  · rfl
  · dsimp only
    split <;> rfl

lemma sysStarted_reachable : Reachable sysStarted :=
  Reachable.step (Reachable.step Reachable.init (Step.store initSys))
    (Step.start (watchStoreFn initSys) 0)

lemma sysCanceled_reachable : Reachable sysCanceled :=
  Reachable.step sysStarted_reachable (Step.cancel sysStarted 0)

lemma sysDisposed_reachable : Reachable sysDisposed :=
  Reachable.step sysCanceled_reachable (Step.dispose sysCanceled 0)

/-- C1: once a watcher has reached its terminal disposed state (channel
closed, teardown callback run), the registry no longer points at it; any
subsequent watch call never returns the disposed watcher's channel; and when
the registry slot is empty, a repeated unwatch returns false without effect
while a subsequent watch creates, registers and starts a fresh watcher
rather than reusing the disposed one. -/
theorem disposal_removes_watcher (s : Sys) (hr : Reachable s) (i : Nat) (w : WRec)
    (hw : s.ws.get? i = some w) (hd : w.state = .disposed) :
    s.reg ≠ some i ∧
    (watchFn s).1 ≠ i ∧
    (s.reg = none →
      unwatchFn s = (false, s) ∧
      (watchFn s).1 = s.ws.length ∧
      (watchFn s).2.reg = some s.ws.length ∧
      (watchFn s).2.ws.get? s.ws.length
        = some { state := .running, starts := 1, closes := 0, stops := 0 }) := by
  have hinv := reachable_inv hr
  exact ⟨fun hreg => (hinv i w hw).1.2 hreg hd,
    watch_ne_disposed hinv hw hd,
    fun hn => ⟨unwatch_none hn, watch_fresh hn⟩⟩

/-- Witness for C1 at the reachable state in which the only watcher ever
created for the URI has been disposed. -/
theorem disposal_removes_watcher_witness :
    sysDisposed.reg ≠ some 0 ∧
    (watchFn sysDisposed).1 ≠ 0 ∧
    unwatchFn sysDisposed = (false, sysDisposed) ∧
    (watchFn sysDisposed).1 = sysDisposed.ws.length ∧
    (watchFn sysDisposed).2.ws.get? sysDisposed.ws.length
      = some { state := .running, starts := 1, closes := 0, stops := 0 } := by
  have h := disposal_removes_watcher sysDisposed sysDisposed_reachable 0 wRecDisposed
    (by decide) (by decide)
  have h3 := h.2.2 (by decide)
  exact ⟨h.1, h.2.1, h3.1, h3.2.1, h3.2.2.2⟩

/-- C2: in every reachable state the channel-close and teardown side effects
have each run at most once per watcher (exactly once when and only when it
is disposed), and every state change any atomic step performs follows one of
the three compare-and-swap edges — in particular the disposed state is
entered only from the canceled state. -/
theorem dispose_exactly_once_from_canceled :
    (∀ s, Reachable s → ∀ i w, s.ws.get? i = some w →
       w.closes ≤ 1 ∧ w.stops ≤ 1 ∧
       (w.state = .disposed → w.closes = 1 ∧ w.stops = 1) ∧
       (w.state ≠ .disposed → w.closes = 0 ∧ w.stops = 0)) ∧
    (∀ s s', Step s s' → ∀ i w w', s.ws.get? i = some w → s'.ws.get? i = some w' →
       w.state ≠ w'.state →
       (w.state = .created ∧ w'.state = .running) ∨
       (w.state = .running ∧ w'.state = .canceled) ∨
       (w.state = .canceled ∧ w'.state = .disposed)) := by
  constructor
  · intro s hr i w hw
    have hd := ((reachable_inv hr) i w hw).2.2
    unfold DisposeOk at hd
    split at hd
    next h => exact ⟨by omega, by omega, fun _ => hd, fun hn => absurd h hn⟩
    next h => exact ⟨by omega, by omega, fun hx => absurd hx h, fun _ => hd⟩
  · intro s s' hstep
    exact step_state_change hstep

/-- Witness for C2 at the disposed watcher of a concrete trace and at the
concrete disposing step of that trace. -/
theorem dispose_exactly_once_from_canceled_witness :
    (wRecDisposed.closes ≤ 1 ∧ wRecDisposed.stops ≤ 1 ∧
      (wRecDisposed.state = .disposed → wRecDisposed.closes = 1 ∧ wRecDisposed.stops = 1) ∧
      (wRecDisposed.state ≠ .disposed → wRecDisposed.closes = 0 ∧ wRecDisposed.stops = 0)) ∧
    ((wRecCanceled.state = .created ∧ wRecDisposed.state = .running) ∨
     (wRecCanceled.state = .running ∧ wRecDisposed.state = .canceled) ∨
     (wRecCanceled.state = .canceled ∧ wRecDisposed.state = .disposed)) := by
  constructor
  · exact dispose_exactly_once_from_canceled.1 sysDisposed sysDisposed_reachable 0
      wRecDisposed (by decide)
  · exact dispose_exactly_once_from_canceled.2 sysCanceled sysDisposed
      (Step.dispose sysCanceled 0) 0 wRecCanceled wRecDisposed (by decide) (by decide)
      (by decide)

/-- C3: in every reachable state at most one watcher per URI is live
(non-disposed); a watch call while a watcher is registered returns that
watcher's channel without any other effect; two consecutive watch calls
return the same channel, the second being a complete no-op; and no watcher
is ever started more than once. -/
theorem watch_dedup_per_uri :
    (∀ s, Reachable s → ∀ i j wi wj, s.ws.get? i = some wi → s.ws.get? j = some wj →
       wi.state ≠ .disposed → wj.state ≠ .disposed → i = j) ∧
    (∀ s i, s.reg = some i → watchFn s = (i, s)) ∧
    (∀ s : Sys, watchFn (watchFn s).2 = ((watchFn s).1, (watchFn s).2)) ∧
    (∀ s, Reachable s → ∀ i w, s.ws.get? i = some w → w.starts ≤ 1) := by
  refine ⟨?_, ?_, ?_, ?_⟩
  · intro s hr i j wi wj hi hj hni hnj
    exact live_unique (reachable_inv hr) hi hj hni hnj
  · intro s i h
    exact watch_of_reg h
  · intro s
    cases hr : s.reg with
    | some i =>
      rw [watch_of_reg hr]
      rw [watch_of_reg (s := s) hr]
    | none =>
      obtain ⟨h1, h2, _⟩ := watch_fresh hr
      rw [watch_of_reg h2, h1]
  · intro s hr i w hw
    have hst := ((reachable_inv hr) i w hw).2.1
    unfold StartsOk at hst
    split at hst <;> omega

/-- Witness for C3 at a concrete reachable state with one live watcher. -/
theorem watch_dedup_per_uri_witness :
    (0 : Nat) = 0 ∧
    watchFn sysStarted = (0, sysStarted) ∧
    wRecRunning.starts ≤ 1 := by
  refine ⟨?_, ?_, ?_⟩
  · exact watch_dedup_per_uri.1 sysStarted sysStarted_reachable 0 0 wRecRunning wRecRunning
      (by decide) (by decide) (by decide) (by decide)
  · exact watch_dedup_per_uri.2.1 sysStarted 0 (by decide)
  · exact watch_dedup_per_uri.2.2.2 sysStarted sysStarted_reachable 0 wRecRunning (by decide)

/-- C4: a second Start call on the same watcher is a no-op returning it
unchanged with no emission; the first Start from the created state moves the
watcher to running, performs the one immediate check and adds exactly one
polling loop; and in every reachable state under any interleaving no watcher
has been started more than once. -/
theorem start_idempotent :
    (∀ (t' t : Tick) (w : WModel), start t' (start t w).1 = ((start t w).1, none)) ∧
    (∀ (t : Tick) (w : WModel), w.state = .created →
       (start t w).1.state = .running ∧
       (start t w).1.loops = w.loops + 1 ∧
       start t w = (let p := check t { w with state := .running }
                    ({ p.1 with loops := p.1.loops + 1 }, p.2))) ∧
    (∀ s, Reachable s → ∀ i w, s.ws.get? i = some w → w.starts ≤ 1) := by
  refine ⟨start_start, ?_, ?_⟩
  · intro t w h
    refine ⟨?_, ?_, start_of_created h⟩
    · rw [start_of_created h]
      exact check_state rfl
    · rw [start_of_created h]
      simp only
      rw [check_loops]
  · intro s hr i w hw
    have hst := ((reachable_inv hr) i w hw).2.1
    unfold StartsOk at hst
    split at hst <;> omega

/-- Witness for C4: starting a fresh watcher once and then again. -/
theorem start_idempotent_witness :
    start tickSkip (start tickData newWatcherM).1 = ((start tickData newWatcherM).1, none) ∧
    (start tickData newWatcherM).1.state = .running ∧
    (start tickData newWatcherM).1.loops = newWatcherM.loops + 1 ∧
    wRecRunning.starts ≤ 1 := by
  have h2 := start_idempotent.2.1 tickData newWatcherM (by decide)
  exact ⟨start_idempotent.1 tickSkip tickData newWatcherM, h2.1, h2.2.1,
    start_idempotent.2.2 sysStarted sysStarted_reachable 0 wRecRunning (by decide)⟩

/-- C5 counterexample: the claim says the timestamp passed as `updatedSince`
to each conditional fetch is the last-successful-update timestamp.  In the
concrete run below the first tick's fetch fails with an error, yet the
second tick's fetch is passed 5 — the publish time of that error update —
while the last-successful-update timestamp in the spec's sense is still the
initial 0, because no error-free update was ever emitted. -/
theorem updatedSince_last_successful_cex :
    ((checkLoop [tickErr, tickErr2] wRun).2.map (·.since) = [0, 5]) ∧
    lastSuccessful wRun.updatedAt ((checkLoop [tickErr, tickErr2] wRun).2.take 1) = 0 ∧
    ((checkLoop [tickErr, tickErr2] wRun).2.filterMap (·.sent)).all
      (fun p => p.2.err.isSome) = true ∧
    (5 : Int) ≠ 0 := by
  refine ⟨by decide, by decide, by decide, by decide⟩

/-- C5 (amended): the timestamp passed as `updatedSince` to each conditional
fetch is the last-emitted-update timestamp — the `now` recorded when the
most recent update (data or error) was pushed, or the initial value when
none was; once set it is monotonically non-decreasing (only ever advanced,
never rewound); and under strictly increasing `time.Now()` readings the
updates are emitted in strictly increasing order of the `now` recorded at
publish time. -/
theorem updatedSince_last_emitted_monotone (ts : List Tick) (w : WModel)
    (hlb : ∀ n ∈ ts.map (·.now), w.updatedAt ≤ n)
    (hpw : (ts.map (·.now)).Pairwise (· ≤ ·))
    (hstrict : (ts.map (·.now)).Pairwise (· < ·)) :
    (∀ k (hk : k < (checkLoop ts w).2.length),
       ((checkLoop ts w).2.get ⟨k, hk⟩).since
         = lastSent w.updatedAt ((checkLoop ts w).2.take k)) ∧
    ((w.updatedAt :: (checkLoop ts w).2.map (·.since)).Pairwise (· ≤ ·)) ∧
    w.updatedAt ≤ (checkLoop ts w).1.updatedAt ∧
    (sentNows (checkLoop ts w).2).Pairwise (· < ·) := by
  have hm := loop_mono ts w hlb hpw
  refine ⟨loop_since_lastSent ts w, ?_, hm.2.2,
    List.Pairwise.sublist (sentNows_sublist ts w) hstrict⟩
  rw [List.pairwise_cons]
  refine ⟨?_, hm.2.1⟩
  intro n hn
  obtain ⟨e, he, rfl⟩ := List.mem_map.1 hn
  exact hm.1 e he

/-- Witness for C5 (amended) on a concrete two-tick run with strictly
increasing clock readings. -/
theorem updatedSince_last_emitted_monotone_witness :
    ((wRun.updatedAt :: (checkLoop [tickErr, tickData] wRun).2.map (·.since)).Pairwise
      (· ≤ ·)) ∧
    wRun.updatedAt ≤ (checkLoop [tickErr, tickData] wRun).1.updatedAt ∧
    (sentNows (checkLoop [tickErr, tickData] wRun).2).Pairwise (· < ·) := by
  have h := updatedSince_last_emitted_monotone [tickErr, tickData] wRun
    (by
      intro n hn
      simp only [List.map_cons, List.map_nil, List.mem_cons, List.not_mem_nil,
        or_false] at hn
      rcases hn with rfl | rfl <;> decide)
    (by decide) (by decide)
  exact ⟨h.2.1, h.2.2.1, h.2.2.2⟩

/-- C6: a running-state tick whose conditional fetch returns an error
publishes an update carrying exactly that error (and the returned bytes) on
the stream, leaves the watcher in the running state, and the polling loop
proceeds to the following iterations rather than terminating. -/
theorem fetch_error_relayed_loop_continues (t : Tick) (ts : List Tick) (w : WModel)
    (b : Option Bytes) (er : String)
    (hs : w.state = .running) (hd : t.done = false)
    (hf : t.fetch (updatedAtTime w) = (b, some er)) :
    check t w = ({ w with updatedAt := t.now }, some { data := b, err := some er }) ∧
    (check t w).1.state = .running ∧
    checkLoop (t :: ts) w =
      ((checkLoop ts { w with updatedAt := t.now }).1,
       { since := updatedAtTime w, sent := some (t.now, { data := b, err := some er }) }
         :: (checkLoop ts { w with updatedAt := t.now }).2) := by
  have hch : check t w = ({ w with updatedAt := t.now }, some { data := b, err := some er }) := by
    rw [check_running hs, hf]
    rw [if_neg (by simp)]
  refine ⟨hch, by rw [hch]; exact hs, ?_⟩
  rw [checkLoop_run ts hs hd, hch]
  rfl

/-- Witness for C6: one failing tick followed by one further tick. -/
theorem fetch_error_relayed_loop_continues_witness :
    check tickErr wRun
      = ({ wRun with updatedAt := tickErr.now }, some { data := none, err := some "boom" }) ∧
    (check tickErr wRun).1.state = .running ∧
    checkLoop [tickErr, tickData] wRun =
      ((checkLoop [tickData] { wRun with updatedAt := tickErr.now }).1,
       { since := updatedAtTime wRun,
         sent := some (tickErr.now, { data := none, err := some "boom" }) }
         :: (checkLoop [tickData] { wRun with updatedAt := tickErr.now }).2) :=
  fetch_error_relayed_loop_continues tickErr [tickData] wRun none "boom" rfl rfl rfl

/-- C7: a running-state tick whose fetch reports no change (nil bytes, nil
error) returns the watcher completely unchanged — same state, same
last-update time — and emits nothing; and across any run of the polling
loop, no update whose data and error are both nil is ever pushed on the
stream. -/
theorem no_change_tick_skips :
    (∀ (t : Tick) (w : WModel), w.state = .running →
       t.fetch (updatedAtTime w) = (none, none) → check t w = (w, none)) ∧
    (∀ (ts : List Tick) (w : WModel), ∀ e ∈ (checkLoop ts w).2, ∀ p, e.sent = some p →
       ¬(p.2.data = none ∧ p.2.err = none)) := by
  constructor
  · intro t w hs hf
    rw [check_running hs, hf]
    rw [if_pos (by simp)]
  · exact fun ts w => loop_sent_not_empty ts w

/-- Witness for C7: a no-change tick on a running watcher, and the update
actually pushed during a concrete run is not the nil-nil signal. -/
theorem no_change_tick_skips_witness :
    check tickSkip wRun = (wRun, none) ∧
    ¬((Update.mk none (some "boom")).data = none ∧
      (Update.mk none (some "boom")).err = none) := by
  constructor
  · exact no_change_tick_skips.1 tickSkip wRun rfl rfl
  · exact no_change_tick_skips.2 [tickErr, tickData] wRun
      { since := 0, sent := some (5, Update.mk none (some "boom")) } (by decide)
      (5, Update.mk none (some "boom")) rfl

/-- C8 counterexample: the claim says `loadIf(uri, zeroTime)` returns the
resource's full payload for every existing resource of a supported scheme.
For a file that exists but was modified only half a second past the Unix
epoch (whole Unix second 0, not strictly greater than `zeroTime`'s second 0)
the code returns `(nil, nil)` instead of the payload `[7]`. -/
theorem loadIf_zero_time_cex :
    loaderEpoch.fs (FileB.parsePath uriA.path)
      = some { modTime := 500000000, content := [7] } ∧
    LoadIf loaderEpoch uriA zeroTime = (none, none) ∧
    ((none : Option Bytes), (none : Option String)) ≠ (some ([7] : Bytes), none) := by
  refine ⟨by decide, by decide, by decide⟩

/-- C8 (amended): for a file URI whose resource exists, `LoadIf` at any time
strictly after the resource's modification time returns empty bytes and no
error; and `LoadIf` at `zeroTime` returns the full payload provided the
resource's whole Unix second is strictly positive (the resource was modified
at least one full second after the epoch). -/
theorem loadIf_conditional_contract (l : Loader) (host path : String) (fi : FileInfo)
    (hf : l.fs (FileB.parsePath path) = some fi) :
    (∀ t : Int, fi.modTime < t →
       LoadIf l { scheme := "file", host := host, path := path } t = (none, none)) ∧
    (0 < unixSec fi.modTime →
       LoadIf l { scheme := "file", host := host, path := path } zeroTime
         = (some fi.content, none)) := by
  have hu : ∀ t : Int, LoadIf l { scheme := "file", host := host, path := path } t
      = FileB.DownloadIf l.fs { scheme := "file", host := host, path := path } t :=
    fun _ => rfl
  constructor
  · intro t ht
    rw [hu t]
    unfold FileB.DownloadIf
    dsimp only
    rw [hf]
    dsimp only
    have hnm : FileB.isModified fi.modTime t = false := by
      unfold FileB.isModified
      simp only [decide_eq_false_iff_not, not_lt]
      exact unixSec_mono ht.le
    rw [hnm]
    rfl
  · intro hpos
    rw [hu zeroTime]
    unfold FileB.DownloadIf
    dsimp only
    rw [hf]
    dsimp only
    have hm : FileB.isModified fi.modTime zeroTime = true := by
      unfold FileB.isModified
      simp only [decide_eq_true_eq]
      exact hpos
    rw [hm]
    show FileB.Download l.fs { scheme := "file", host := host, path := path }
      = (some fi.content, none)
    unfold FileB.Download
    dsimp only
    rw [hf]

/-- Witness for C8 (amended) on a file modified at 1.9 seconds past the
epoch, probed after its modification time and at `zeroTime`. -/
theorem loadIf_conditional_contract_witness :
    LoadIf loaderLate uriB 2000000000 = (none, none) ∧
    LoadIf loaderLate uriB zeroTime = (some ([3, 4] : Bytes), none) := by
  have h := loadIf_conditional_contract loaderLate "" "/b.txt"
    { modTime := 1900000000, content := [3, 4] } (by decide)
  exact ⟨h.1 2000000000 (by decide), h.2 (by decide)⟩

/-- C9: `Load` returns exactly what `LoadIf` returns at the zero
`updatedSince` time, for every loader environment and URI. -/
theorem load_eq_loadIf_zeroTime : ∀ (l : Loader) (u : Uri), Load l u = LoadIf l u zeroTime :=
  fun _ _ => rfl

/-- C10: the modification comparison works in whole Unix seconds in every
backend — the file, S3 and HTTP comparisons are one and the same predicate,
it reports "not modified" exactly when the resource's whole Unix second does
not strictly exceed `updatedSince`'s, a resource modified later than
`updatedSince` but within the same second is reported unchanged, and in the
file and S3 backends the not-modified outcome is the `(nil, nil)` reply. -/
theorem isModified_whole_seconds :
    (∀ ua us : Int, FileB.isModified ua us = false ↔ unixSec ua ≤ unixSec us) ∧
    (S3B.isModified = FileB.isModified ∧ HttpB.isModified = FileB.isModified) ∧
    (∀ ua us : Int, us < ua → unixSec ua = unixSec us → FileB.isModified ua us = false) ∧
    (∀ (fs : FileSys) (u : Uri) (t : Int) (fi : FileInfo),
       fs (FileB.parsePath u.path) = some fi → unixSec fi.modTime ≤ unixSec t →
       FileB.DownloadIf fs u t = (none, none)) ∧
    (∀ (c : S3B.Client) (bucket pfx k : String) (t ua : Int),
       S3B.getLatestKey c bucket pfx = .ok (k, ua) → unixSec ua ≤ unixSec t →
       S3B.DownloadIf c bucket pfx t = (none, none)) := by
  have hiff : ∀ ua us : Int, FileB.isModified ua us = false ↔ unixSec ua ≤ unixSec us := by
    intro ua us
    unfold FileB.isModified
    simp only [decide_eq_false_iff_not, not_lt]
  refine ⟨hiff, ⟨rfl, rfl⟩, ?_, ?_, ?_⟩
  · intro ua us _ he
    exact (hiff ua us).2 (le_of_eq he)
  · intro fs u t fi hf hle
    unfold FileB.DownloadIf
    rw [hf]
    dsimp only
    rw [(hiff _ _).2 hle]
    rfl
  · intro c bucket pfx k t ua hk hle
    unfold S3B.DownloadIf
    rw [hk]
    dsimp only
    have hs3 : S3B.isModified ua t = false := by
      rw [show S3B.isModified = FileB.isModified from rfl]
      exact (hiff ua t).2 hle
    rw [hs3]
    rfl

/-- Witness for C10: a resource modified at 1.9 seconds checked against an
`updatedSince` of 1.5 seconds — later in real time, equal in whole seconds —
is reported unchanged by the predicate and answered with `(nil, nil)` by the
file and S3 backends. -/
theorem isModified_whole_seconds_witness :
    (FileB.isModified 1900000000 1500000000 = false ↔
      unixSec 1900000000 ≤ unixSec 1500000000) ∧
    FileB.isModified 1900000000 1500000000 = false ∧
    FileB.DownloadIf fsLate uriB 1500000000 = (none, none) ∧
    S3B.DownloadIf s3One "bucket" "p" 1500000000 = (none, none) := by
  refine ⟨isModified_whole_seconds.1 1900000000 1500000000,
    isModified_whole_seconds.2.2.1 1900000000 1500000000 (by decide) (by decide),
    isModified_whole_seconds.2.2.2.1 fsLate uriB 1500000000
      { modTime := 1900000000, content := [3, 4] } (by decide) (by decide),
    isModified_whole_seconds.2.2.2.2 s3One "bucket" "p" "k" 1500000000 1900000000 rfl
      (by decide)⟩

end LoaderSpec
